import Mathlib

/-!
Shallow embedding of the `local-search` repository (N-Queens backtracking,
N-Queens simulated annealing, 8-tile simulated annealing) and proofs about
the specification claims.

Conventions:
* A queen is a `(row, col)` pair of naturals, mirroring the Python tuples.
* Python `random.*` draws are modelled as oracle inputs: each loop
  iteration receives the values the random source would have produced.
* The float comparison `random.random() < math.exp (-d / T)` is modelled
  at two levels: a real-valued predicate (`metropolis`) translated from the
  source text, and a boolean oracle field standing for the outcome of that
  comparison inside the executable loop embeddings.
-/

namespace LocalSearch

/-- A queen position `(row, col)`, as in the Python tuples. -/
abbrev Queen : Type := Nat × Nat

/-- Translated from `queens.py` `NQueensGUI.is_safe` (also
`n_queens_gui.py` `is_safe`): a cell `(row, col)` is safe when no queen of
`sol` has the same column or lies on a diagonal through the cell
(`abs (q_row - row) == abs (q_col - col)`).  Note the source checks only
column and diagonal, not shared rows. -/
def is_safe (sol : List Queen) (row col : Nat) : Bool :=
  sol.all fun q =>
    !(q.2 == col || ((q.1 : Int) - (row : Int)).natAbs == ((q.2 : Int) - (col : Int)).natAbs)

/-- Modelled from the words of claim C4 (spec §4.1): safe iff no placed
queen occupies the column, shares the row, or lies on either diagonal.
This is the spec-side predicate, to be compared with `is_safe`. -/
def claim_safe (sol : List Queen) (row col : Nat) : Bool :=
  sol.all fun q =>
    !(q.2 == col || q.1 == row ||
      ((q.1 : Int) - (row : Int)).natAbs == ((q.2 : Int) - (col : Int)).natAbs)

/-- Attack contribution of an ordered pair of queens, translated from the
inner loop of `queen_annealing.py` `count_attacks`: one unit when the rows
coincide and one more when the pair lies on a common diagonal. -/
def pair_attacks (a b : Queen) : Nat :=
  (if a.1 = b.1 then 1 else 0) +
    (if ((a.1 : Int) - (b.1 : Int)).natAbs = ((a.2 : Int) - (b.2 : Int)).natAbs then 1 else 0)

/-- Translated from `queen_annealing.py` `NQueensGUI.count_attacks`: the
double loop `for i, for j in (i+1)..` summing row and diagonal conflicts. -/
def count_attacks : List Queen → Nat
  | [] => 0
  | q :: rest => (rest.map (pair_attacks q)).sum + count_attacks rest

/-- Translated from `queen_annealing.py` `NQueensGUI.get_random_neighbor`:
`new_state = state.copy(); new_state[queen_idx] = (new_row, queen_idx)`.
The two `random.randint(0, n-1)` draws arrive as the oracle arguments
`queen_idx` and `new_row`. -/
def get_random_neighbor (state : List Queen) (queen_idx new_row : Nat) : List Queen :=
  state.set queen_idx (new_row, queen_idx)

/-- Column loop of `queens.py` `NQueensGUI.backtrack` (and
`n_queens_gui.py` `solve`): try the columns of `cols` in order at `row`;
on a safe column place the queen and call the continuation `next`
(the recursion into the following row); when that fails, undo the
placement and keep scanning. -/
def try_cols (next : List Queen → Option (List Queen))
    (row : Nat) (sol : List Queen) : List Nat → Option (List Queen)
  | [] => none
  | c :: cs =>
    if is_safe sol row c then
      match next (sol ++ [(row, c)]) with
      | some s => some s
      | none => try_cols next row sol cs
    else try_cols next row sol cs

/-- Translated from `queens.py` `NQueensGUI.backtrack`:
`if row == n: return True; for col in range(n): ...; return False`.
The structural `fuel` argument is `n - row`; the top-level call
`backtrack n` supplies `fuel = n`, so `fuel = 0` coincides with
`row = n` on every reachable call.  On success the accumulated solution
list is returned (the Python code leaves it in `self.solution`). -/
def backtrack_aux (n : Nat) : Nat → Nat → List Queen → Option (List Queen)
  | 0, row, sol => if row = n then some sol else none
  | fuel + 1, row, sol =>
    if row = n then some sol
    else try_cols (fun s => backtrack_aux n fuel (row + 1) s) row sol (List.range n)

/-- Whole-run backtracking solver started on the empty board, as
`backtrack_wrapper` / pressing SPACE does: row `0`, empty solution. -/
def backtrack (n : Nat) : Option (List Queen) :=
  backtrack_aux n n 0 []

/-- Step action tag of `queens.py` `record_step` (the Python code uses the
strings `"Place"` and `"Remove"`). -/
inductive StepAction : Type
  | place : StepAction
  | remove : StepAction
deriving DecidableEq, Repr

/-- A recorded step of `queens.py`: `(action, pos, list(self.solution))`. -/
abbrev StepRec : Type := StepAction × Queen × List Queen

/-- Replay-relevant state of `queens.py` `NQueensGUI`: the step list, the
cursor `current_step`, and the live `solution` that `next_step` /
`prev_step` overwrite from the selected snapshot.
`queen_annealing.py` `handle_click` implements the same cursor moves with
the same guards on its own `steps` list. -/
structure Replay : Type where
  steps : List StepRec
  current_step : Nat
  solution : List Queen
deriving DecidableEq, Repr

/-- Translated from `queens.py` `NQueensGUI.record_step`: append the step
and move the cursor to the new tail. -/
def record_step (s : Replay) (action : StepAction) (pos : Queen) : Replay :=
  let steps := s.steps ++ [(action, pos, s.solution)]
  { s with steps := steps, current_step := steps.length - 1 }

/-- Translated from `queens.py` `NQueensGUI.next_step`: advance the cursor
when `current_step < len(steps) - 1`, reloading the snapshot; otherwise do
nothing.  Natural subtraction agrees with Python here: for an empty list
the Python guard compares against `-1` and is false, as is `0 < 0`. -/
def next_step (s : Replay) : Replay :=
  if s.current_step < s.steps.length - 1 then
    let c := s.current_step + 1
    { s with current_step := c,
             solution := ((s.steps.getD c (.place, (0, 0), [])).2).2 }
  else s

/-- Translated from `queens.py` `NQueensGUI.prev_step`: move the cursor
back when `current_step > 0`, reloading the snapshot; otherwise nothing. -/
def prev_step (s : Replay) : Replay :=
  if 0 < s.current_step then
    let c := s.current_step - 1
    { s with current_step := c,
             solution := ((s.steps.getD c (.place, (0, 0), [])).2).2 }
  else s

/-- Read of `self.steps[self.current_step]`, the step the cursor points at
(the `current()` operation of the spec). -/
def current_of (s : Replay) : Option StepRec :=
  s.steps.get? s.current_step

/-- Manual-placement state of `queens.py`: the solver solution list plus
the recorded steps (the pieces of `NQueensGUI` state that
`handle_manual_placement` can touch). -/
structure ManualState : Type where
  n : Nat
  replay : Replay
deriving DecidableEq, Repr

/-- Translated from `queens.py` `handle_click` board branch together with
`handle_manual_placement`: `col = pos[0] // CELL_SIZE`,
`row = pos[1] // CELL_SIZE` with `CELL_SIZE = 800 // n`; when
`is_safe(row, col)` the queen is appended and a Place step recorded,
otherwise nothing changes (only sounds play).  The caller guarantees
`pos.1 < CELL_SIZE * n` (the routing guard `pos[0] < self.BOARD_SIZE`). -/
def handle_manual_placement (s : ManualState) (pos : Nat × Nat) : ManualState :=
  let cell := 800 / s.n
  let col := pos.1 / cell
  let row := pos.2 / cell
  if is_safe s.replay.solution row col then
    let appended := { s.replay with solution := s.replay.solution ++ [(row, col)] }
    { s with replay := record_step appended StepAction.place (row, col) }
  else s

/-- Translated from the board branch of `queen_annealing.py`
`handle_click` (lines 577-587): with the click already converted to a
board cell, append the queen only when the cell is in range, the column
is unoccupied and the board is not yet full; otherwise leave
`current_state` unchanged (`steps` is never touched by this branch). -/
def annealing_place (n : Nat) (current_state : List Queen) (row col : Nat) : List Queen :=
  if row < n ∧ col < n then
    if (!current_state.any fun q => q.2 == col) ∧ current_state.length < n then
      current_state ++ [(row, col)]
    else current_state
  else current_state

/-- Metropolis acceptance test of both annealing loops, translated from
`energy_diff < 0 or random.random() < math.exp(-energy_diff / temperature)`
(`tiles.py` line 146, `queen_annealing.py` line 302), with the uniform
draw `u` passed explicitly. -/
def metropolis (d : Int) (T u : ℝ) : Prop :=
  d < 0 ∨ u < Real.exp (-(d : ℝ) / T)

/-- Energy difference of `tiles.py` line 143:
`energy_diff = neighbor_energy - current_energy`. -/
def tiles_energy_diff (neighbor_energy current_energy : Nat) : Int :=
  (neighbor_energy : Int) - (current_energy : Int)

/-- Energy difference of `queen_annealing.py` line 299:
`energy_diff = neighbor_energy - self.best_energy`. -/
def anneal_energy_diff (neighbor_energy best_energy : Nat) : Int :=
  (neighbor_energy : Int) - (best_energy : Int)

/-- Modelled from the words of claim C2: the energy difference is "the
newly generated neighbor's metric minus the best-so-far (current_best)
metric", for comparison with the two source-side differences. -/
def claim_energy_diff (neighbor_energy best_energy : Nat) : Int :=
  (neighbor_energy : Int) - (best_energy : Int)

/-- Tunables of `queen_annealing.py` `NQueensGUI.__init__`; the floats are
represented exactly as rationals (100.0, 0.95, 0.1, 200000). -/
structure AnnealParams : Type where
  initial_temperature : ℚ
  cooling_rate : ℚ
  min_temperature : ℚ
  max_iterations : Nat
deriving DecidableEq, Repr

/-- Default annealing parameters of `queen_annealing.py`. -/
def annealDefaults : AnnealParams :=
  { initial_temperature := 100, cooling_rate := 19 / 20,
    min_temperature := 1 / 10, max_iterations := 200000 }

/-- Run state of `queen_annealing.py` `NQueensGUI.simulated_annealing`.
A recorded step keeps the configuration snapshot and the energy passed to
`record_step` (the description string is presentation only and dropped);
every call site passes `self.best_energy` as the energy. -/
structure AnnealState : Type where
  n : Nat
  current_state : List Queen
  best_state : List Queen
  best_energy : Nat
  current_temperature : ℚ
  current_iteration : Nat
  steps : List (List Queen × Nat)
deriving DecidableEq, Repr

/-- Translated from `queen_annealing.py` `NQueensGUI.record_step`: append
the snapshot/energy pair (the cursor move it also performs only matters
for replay, which is modelled by `Replay`). -/
def anneal_record (s : AnnealState) (st : List Queen) (e : Nat) : AnnealState :=
  { s with steps := s.steps ++ [(st, e)] }

/-- Loop guard of `queen_annealing.py` lines 281-283:
`current_temperature > min_temperature and current_iteration <
max_iterations and best_energy > 0`. -/
def anneal_guard (P : AnnealParams) (s : AnnealState) : Prop :=
  P.min_temperature < s.current_temperature ∧
    s.current_iteration < P.max_iterations ∧ 0 < s.best_energy

instance (P : AnnealParams) (s : AnnealState) : Decidable (anneal_guard P s) := by
  unfold anneal_guard; infer_instance

/-- Oracle input of one annealing iteration: the two
`random.randint(0, n-1)` draws of `get_random_neighbor` and the outcome of
the comparison `random.random() < math.exp(-energy_diff / temperature)`
(which the Python code only evaluates when `energy_diff >= 0`). -/
structure AnnealOracle : Type where
  queen_idx : Nat
  new_row : Nat
  accept_worse : Bool
deriving DecidableEq, Repr

/-- One iteration of the `while` loop of `queen_annealing.py`
`simulated_annealing` (lines 281-321), for a state satisfying the guard:
record the periodic temperature step, generate the neighbor, run the
acceptance test, update best on strict improvement (recording it), cool
down, and record every 10th iteration.  `randint` draws are reduced
`mod n` so that arbitrary oracle naturals cover exactly the Python range
`0..n-1`.  When the guard fails the state is returned unchanged (the loop
has exited). -/
def anneal_step (P : AnnealParams) (s : AnnealState) (o : AnnealOracle) : AnnealState :=
  if anneal_guard P s then
    let s0 := anneal_record s s.current_state s.best_energy
    let neighbor := get_random_neighbor s0.current_state (o.queen_idx % s0.n) (o.new_row % s0.n)
    let neighbor_energy := count_attacks neighbor
    let d := anneal_energy_diff neighbor_energy s0.best_energy
    let s1 : AnnealState :=
      if d < 0 ∨ o.accept_worse then
        let sAcc := { s0 with current_state := neighbor }
        if neighbor_energy < sAcc.best_energy then
          anneal_record
            { sAcc with best_state := neighbor, best_energy := neighbor_energy }
            neighbor neighbor_energy
        else sAcc
      else s0
    let s2 : AnnealState := { s1 with
      current_temperature := s1.current_temperature * P.cooling_rate,
      current_iteration := s1.current_iteration + 1 }
    if s2.current_iteration % 10 = 0 then
      anneal_record s2 s2.current_state s2.best_energy
    else s2
  else s

/-- Initialisation of `queen_annealing.py` `simulated_annealing` (lines
270-279): reset steps, temperature and iteration, copy the user-placed
configuration as the first best, and record the initial state. -/
def anneal_init (P : AnnealParams) (n : Nat) (start : List Queen) : AnnealState :=
  let e := count_attacks start
  anneal_record
    { n := n, current_state := start, best_state := start, best_energy := e,
      current_temperature := P.initial_temperature, current_iteration := 0,
      steps := [] }
    start e

/-- The annealing loop driven by an oracle stream, with structural fuel:
the Python `while` runs at most `max_iterations` iterations, so calling
this with `fuel = max_iterations` reproduces the whole loop. -/
def anneal_loop (P : AnnealParams) (stream : Nat → AnnealOracle) :
    Nat → AnnealState → AnnealState
  | 0, s => s
  | fuel + 1, s =>
    if anneal_guard P s then
      anneal_loop P stream fuel (anneal_step P s (stream s.current_iteration))
    else s

/-- Whole generator run of `queen_annealing.py` `simulated_annealing`:
initialise, loop, and record the final state (lines 323-329 record
`best_state, best_energy` whether or not a solution was found). -/
def simulated_annealing_run (P : AnnealParams) (stream : Nat → AnnealOracle)
    (n : Nat) (start : List Queen) : AnnealState :=
  let final := anneal_loop P stream P.max_iterations (anneal_init P n start)
  anneal_record final final.best_state final.best_energy

/-- A cell of the 8-tile puzzle: a numbered tile or the blank marker `"#"`
(represented by `none`). -/
abbrev Tile : Type := Option Nat

/-- A puzzle grid as in `tiles.py`: a list of row lists. -/
abbrev Grid : Type := List (List Tile)

/-- Read `g[i][j]`; out-of-range reads return the blank marker, but every
use below stays inside the `3 x 3` ranges the Python code iterates over. -/
def getCell (g : Grid) (i j : Nat) : Tile :=
  (g.getD i []).getD j none

/-- Write `g[i][j] = v` (no-op out of range, like every guarded use). -/
def setCell (g : Grid) (i j : Nat) (v : Tile) : Grid :=
  g.set i ((g.getD i []).set j v)

/-- Row-major list of the nine cell coordinates, the iteration order of
`for i in range(3): for j in range(3)`. -/
def cells3 : List (Nat × Nat) :=
  (List.range 3).product (List.range 3)

/-- Translated from `EightTilesPuzzle._find_blank`: first cell holding
`"#"` in row-major order, `None` when there is none. -/
def find_blank (g : Grid) : Option (Nat × Nat) :=
  cells3.find? fun p => (getCell g p.1 p.2).isNone

/-- Translated from `EightTilesPuzzle._get_possible_moves`: the legal
blank moves in the order up, down, left, right, each guarded by the grid
edge. -/
def possible_moves (i j : Nat) : List (Int × Int) :=
  (if 0 < i then [((-1 : Int), (0 : Int))] else []) ++
    (if i < 2 then [((1 : Int), (0 : Int))] else []) ++
    (if 0 < j then [((0 : Int), (-1 : Int))] else []) ++
    (if j < 2 then [((0 : Int), (1 : Int))] else [])

/-- Translated from `EightTilesPuzzle._apply_move`: swap the blank at
`(i, j)` with the cell one move away and return the new grid together
with the new blank position. -/
def apply_move (g : Grid) (i j : Nat) (m : Int × Int) : Grid × (Nat × Nat) :=
  let i2 := ((i : Int) + m.1).toNat
  let j2 := ((j : Int) + m.2).toNat
  let a := getCell g i j
  let b := getCell g i2 j2
  (setCell (setCell g i j b) i2 j2 a, (i2, j2))

/-- The default initial state of `tiles.py`:
`[[5, 1, 3], [4, 2, 8], [6, 7, "#"]]`. -/
def tilesInitial : Grid :=
  [[some 5, some 1, some 3], [some 4, some 2, some 8], [some 6, some 7, none]]

/-- The goal state of `tiles.py`: `[[1, 2, 3], [4, 5, 6], [7, 8, "#"]]`. -/
def goal_state : Grid :=
  [[some 1, some 2, some 3], [some 4, some 5, some 6], [some 7, some 8, none]]

/-- The `EightTilesPuzzle` object state: grid plus cached blank position
(`None` when `_find_blank` found no blank). -/
structure EightTilesPuzzle : Type where
  state : Grid
  blank_pos : Option (Nat × Nat)
deriving DecidableEq, Repr

/-- Translated from `EightTilesPuzzle.__init__`: take the given grid (or
the default), and locate the blank. -/
def mkPuzzle (initial_state : Option Grid) : EightTilesPuzzle :=
  let s := initial_state.getD tilesInitial
  { state := s, blank_pos := find_blank s }

/-- Translated from `EightTilesPuzzle.get_random_neighbor`: pick one of
the possible moves (the `random.choice` draw arrives as the oracle
`choice`, reduced mod the number of moves, which is always positive) and
apply it.  A puzzle with no blank is returned unchanged; the Python code
would raise there, and no reachable puzzle is blankless. -/
def tiles_neighbor (p : EightTilesPuzzle) (choice : Nat) : EightTilesPuzzle :=
  match p.blank_pos with
  | none => p
  | some (i, j) =>
    let moves := possible_moves i j
    let m := moves.getD (choice % moves.length) ((1 : Int), (0 : Int))
    let r := apply_move p.state i j m
    { state := r.1, blank_pos := some r.2 }

/-- Translated from `EightTilesPuzzle.calculate_heuristic`: for every
non-blank cell, find the cell of the goal grid holding the same value and
add the Manhattan distance.  The Python inner `break` only leaves the
`gj` loop, but the goal grid holds each value once, so taking the first
row-major match is the same sum. -/
def calculate_heuristic (g : Grid) : Nat :=
  (cells3.map fun p =>
    match getCell g p.1 p.2 with
    | none => 0
    | some v =>
      match cells3.find? (fun q => getCell goal_state q.1 q.2 == some v) with
      | some q => ((p.1 : Int) - (q.1 : Int)).natAbs + ((p.2 : Int) - (q.2 : Int)).natAbs
      | none => 0).sum

/-- Translated from `EightTilesPuzzle.is_goal`: exact grid equality. -/
def is_goal (g : Grid) : Bool :=
  g == goal_state

/-- Tunables of `tiles.py` `simulated_annealing` (defaults 1.0, 0.995,
0.01, 10000; `main` also uses 50000/100000 iterations and temperature
5.0). -/
structure TilesParams : Type where
  initial_temperature : ℚ
  cooling_rate : ℚ
  min_temperature : ℚ
  max_iterations : Nat
deriving DecidableEq, Repr

/-- Default parameter values of `tiles.py` `simulated_annealing`. -/
def tilesDefaults : TilesParams :=
  { initial_temperature := 1, cooling_rate := 199 / 200,
    min_temperature := 1 / 100, max_iterations := 10000 }

/-- Run state of `tiles.py` `simulated_annealing`: the local variables of
the function body. -/
structure TilesSAState : Type where
  current_puzzle : EightTilesPuzzle
  current_energy : Nat
  best_puzzle : EightTilesPuzzle
  best_energy : Nat
  temperature : ℚ
  iteration : Nat
  moves_history : List Grid
deriving DecidableEq, Repr

/-- Loop guard of `tiles.py` lines 133-137: `temperature > min_temperature
and iteration < max_iterations and not current_puzzle.is_goal()`. -/
def tiles_guard (P : TilesParams) (s : TilesSAState) : Prop :=
  P.min_temperature < s.temperature ∧ s.iteration < P.max_iterations ∧
    ¬is_goal s.current_puzzle.state

instance (P : TilesParams) (s : TilesSAState) : Decidable (tiles_guard P s) := by
  unfold tiles_guard; infer_instance

/-- Oracle input of one `tiles.py` loop iteration: the `random.choice`
move draw and the outcome of
`random.random() < math.exp(-energy_diff / temperature)`. -/
structure TilesOracle : Type where
  choice : Nat
  accept_worse : Bool
deriving DecidableEq, Repr

/-- One iteration of the `while` loop of `tiles.py` `simulated_annealing`
(lines 133-158): neighbor, energy difference against the CURRENT energy,
acceptance, best update on strict improvement, cooling.  With the guard
false the state is returned unchanged (the loop has exited). -/
def tiles_sa_step (P : TilesParams) (s : TilesSAState) (o : TilesOracle) : TilesSAState :=
  if tiles_guard P s then
    let neighbor_puzzle := tiles_neighbor s.current_puzzle o.choice
    let neighbor_energy := calculate_heuristic neighbor_puzzle.state
    let d := tiles_energy_diff neighbor_energy s.current_energy
    let s1 : TilesSAState :=
      if d < 0 ∨ o.accept_worse then
        let sAcc := { s with
          current_puzzle := neighbor_puzzle,
          current_energy := neighbor_energy,
          moves_history := s.moves_history ++ [neighbor_puzzle.state] }
        if sAcc.current_energy < sAcc.best_energy then
          { sAcc with best_puzzle := sAcc.current_puzzle,
                      best_energy := sAcc.current_energy }
        else sAcc
      else s
    { s1 with temperature := s1.temperature * P.cooling_rate,
              iteration := s1.iteration + 1 }
  else s

/-- Initialisation of `tiles.py` `simulated_annealing` (lines 121-131). -/
def tiles_sa_init (P : TilesParams) (puzzle : EightTilesPuzzle) : TilesSAState :=
  let e := calculate_heuristic puzzle.state
  { current_puzzle := puzzle, current_energy := e,
    best_puzzle := puzzle, best_energy := e,
    temperature := P.initial_temperature, iteration := 0,
    moves_history := [puzzle.state] }

/-- The tiles annealing loop with structural fuel; `fuel =
max_iterations` reproduces the whole Python `while` loop, whose guard
fails once `iteration` reaches `max_iterations`. -/
def tiles_sa_loop (P : TilesParams) (stream : Nat → TilesOracle) :
    Nat → TilesSAState → TilesSAState
  | 0, s => s
  | fuel + 1, s =>
    if tiles_guard P s then
      tiles_sa_loop P stream fuel (tiles_sa_step P s (stream s.iteration))
    else s

/-- Whole run of `tiles.py` `simulated_annealing` on a starting puzzle;
the function returns `(best_puzzle, best_energy, iteration,
moves_history)`, all fields of the final state. -/
def tiles_sa_run (P : TilesParams) (stream : Nat → TilesOracle)
    (puzzle : EightTilesPuzzle) : TilesSAState :=
  tiles_sa_loop P stream P.max_iterations (tiles_sa_init P puzzle)

/-- Concrete mid-run state of the `tiles.py` annealing loop, as produced
by two iterations from the default start: the uphill neighbors chosen by
`random.choice` draws left-then-up were both accepted (the
`random.random()` comparison came out true), so the working configuration
has drifted to Manhattan distance 12 while the best-so-far is still the
initial 10 and the temperature is `0.995 ^ 2`. -/
def c2state : TilesSAState :=
  { current_puzzle := ⟨[[some 5, some 1, some 3], [some 4, none, some 8], [some 6, some 2, some 7]],
      some (1, 1)⟩,
    current_energy := 12,
    best_puzzle := ⟨tilesInitial, some (2, 2)⟩,
    best_energy := 10,
    temperature := 39601 / 40000,
    iteration := 2,
    moves_history :=
      [tilesInitial,
       [[some 5, some 1, some 3], [some 4, some 2, some 8], [some 6, none, some 7]],
       [[some 5, some 1, some 3], [some 4, none, some 8], [some 6, some 2, some 7]]] }

/-- The neighbor that move draw 1 (blank down) generates at `c2state`:
its Manhattan distance is 11, between best (10) and current (12). -/
def c2nbr : EightTilesPuzzle :=
  ⟨[[some 5, some 1, some 3], [some 4, some 2, some 8], [some 6, none, some 7]], some (2, 1)⟩

/-- A well-formed `3 x 3` puzzle grid: three rows of three cells, the
shape of every grid `tiles.py` constructs. -/
def WellFormed3 (g : Grid) : Prop := g.length = 3 ∧ ∀ r ∈ g, r.length = 3

instance (g : Grid) : Decidable (WellFormed3 g) := by
  unfold WellFormed3; infer_instance

/-- Invariant carried through the tiles annealing loop: the cached
current energy is the heuristic of the current grid, and the best-so-far
energy never exceeds it. -/
def TilesInv (s : TilesSAState) : Prop :=
  s.current_energy = calculate_heuristic s.current_puzzle.state ∧
    s.best_energy ≤ s.current_energy

/-- The sequence of metric values of the recorded steps of an annealing
run, in recording order. -/
def energies (s : AnnealState) : List Nat := s.steps.map Prod.snd

/-- Invariant carried through the annealing loop: the recorded energies
are non-increasing and the live `best_energy` is below all of them. -/
def EnergyInv (s : AnnealState) : Prop :=
  (energies s).Pairwise (fun a b => b ≤ a) ∧ ∀ e ∈ energies s, s.best_energy ≤ e

/-- Invariant of the partial solutions the backtracking solver builds:
entry `k` is a queen in row `k`, and every pair passed the `is_safe`
check (distinct columns, no shared diagonal) when appended. -/
def Partial (sol : List Queen) : Prop :=
  (∀ k (h : k < sol.length), (sol.get ⟨k, h⟩).1 = k) ∧
  sol.Pairwise (fun a b => a.2 ≠ b.2 ∧
    ((a.1 : Int) - (b.1 : Int)).natAbs ≠ ((a.2 : Int) - (b.2 : Int)).natAbs)

/-- A total assignment of a column to each of the `n` rows that is a
valid `n`-queens solution: columns in range, pairwise distinct, and never
on a shared diagonal. -/
def goodCols (n : Nat) (F : Nat → Nat) : Prop :=
  (∀ k, k < n → F k < n) ∧
  ∀ i j, i < j → j < n → F i ≠ F j ∧
    ((j : Int) - (i : Int)).natAbs ≠ ((F i : Int) - (F j : Int)).natAbs

/-- Classic explicit solution for even `n` with `n % 6 ≠ 2`: odd columns
`1, 3, ..., n-1` on the first `n/2` rows, then even columns
`0, 2, ..., n-2`. -/
def evenCols (n : Nat) (c : Nat) : Nat :=
  if c < n / 2 then 2 * c + 1 else 2 * c - n

/-- Explicit solution for odd `n` with `n % 6 ≠ 3`: the even solution on
the first `n - 1` rows plus a queen in the far corner. -/
def oddCols (n : Nat) (c : Nat) : Nat :=
  if c = n - 1 then n - 1 else evenCols (n - 1) c

/-- Explicit solution for `n = 6m + 2`: odd columns on the first half,
then the even columns in the order `2, 0, 6, 8, ..., n-2, 4`. -/
def cols2 (m : Nat) (c : Nat) : Nat :=
  if c < 3 * m + 1 then 2 * c + 1
  else if c = 3 * m + 1 then 2
  else if c = 3 * m + 2 then 0
  else if c ≤ 6 * m then 2 * c - 6 * m
  else 4

/-- Explicit solution for `n = 6m + 3`: odd columns in the order
`3, 5, ..., n-2, 1`, then the even columns `4, 6, ..., n-1, 0, 2`. -/
def cols3 (m : Nat) (c : Nat) : Nat :=
  if c < 3 * m then 2 * c + 3
  else if c = 3 * m then 1
  else if c ≤ 6 * m then 2 * c - 6 * m + 2
  else if c = 6 * m + 1 then 0
  else 2

/-!  ## Lemmas and claim theorems  -/

theorem anneal_step_shape (P : AnnealParams) (s : AnnealState) (o : AnnealOracle) :
    (anneal_step P s o).best_energy ≤ s.best_energy ∧
    ∃ tail : List (List Queen × Nat),
      (anneal_step P s o).steps = s.steps ++ tail ∧
      (tail.map Prod.snd).Pairwise (fun a b => b ≤ a) ∧
      ∀ p ∈ tail, (anneal_step P s o).best_energy ≤ p.2 ∧ p.2 ≤ s.best_energy := by
  simp only [anneal_step, anneal_record]
  split_ifs with hg hacc himp hmod hmod2 hmod3
  all_goals norm_num
  all_goals
    first
    | (refine ⟨le_of_lt himp, ?_⟩
       rintro a b (⟨-, rfl⟩ | ⟨-, rfl⟩) <;> omega)
    | (rintro a b (⟨-, rfl⟩ | ⟨-, rfl⟩) <;> omega)

theorem anneal_step_energyInv (P : AnnealParams) (s : AnnealState) (o : AnnealOracle)
    (h : EnergyInv s) : EnergyInv (anneal_step P s o) := by
  obtain ⟨hb, tail, hsteps, htp, htb⟩ := anneal_step_shape P s o
  constructor
  · show ((anneal_step P s o).steps.map Prod.snd).Pairwise _
    rw [hsteps, List.map_append, List.pairwise_append]
    refine ⟨h.1, htp, ?_⟩
    intro a ha b hbm
    simp only [List.mem_map] at ha hbm
    obtain ⟨p, hp, rfl⟩ := ha
    obtain ⟨q, hq, rfl⟩ := hbm
    have h1 := (htb q hq).2
    have h2 := h.2 p.2 (List.mem_map_of_mem Prod.snd hp)
    omega
  · intro e he
    simp only [energies, hsteps, List.map_append, List.mem_append, List.mem_map] at he
    rcases he with ⟨p, hp, rfl⟩ | ⟨p, hp, rfl⟩
    · have := h.2 p.2 (List.mem_map_of_mem Prod.snd hp)
      omega
    · exact (htb p hp).1

theorem anneal_loop_energyInv (P : AnnealParams) (stream : Nat → AnnealOracle) :
    ∀ (fuel : Nat) (s : AnnealState), EnergyInv s →
      EnergyInv (anneal_loop P stream fuel s) := by
  intro fuel
  induction fuel with
  | zero => intro s h; exact h
  | succ fuel ih =>
    intro s h
    rw [anneal_loop]
    split_ifs with hg
    · exact ih _ (anneal_step_energyInv P s _ h)
    · exact h

theorem anneal_init_energyInv (P : AnnealParams) (n : Nat) (start : List Queen) :
    EnergyInv (anneal_init P n start) := by
  constructor
  · simp [energies, anneal_init, anneal_record]
  · intro e he
    simp [energies, anneal_init, anneal_record] at he
    simp only [anneal_init, anneal_record]
    omega

theorem run_energyInv (P : AnnealParams) (stream : Nat → AnnealOracle)
    (n : Nat) (start : List Queen) :
    EnergyInv (simulated_annealing_run P stream n start) := by
  unfold simulated_annealing_run
  set f := anneal_loop P stream P.max_iterations (anneal_init P n start) with hf
  have hInv : EnergyInv f := anneal_loop_energyInv P stream _ _ (anneal_init_energyInv P n start)
  constructor
  · show ((f.steps ++ [(f.best_state, f.best_energy)]).map Prod.snd).Pairwise _
    rw [List.map_append, List.pairwise_append]
    refine ⟨hInv.1, by simp, ?_⟩
    intro a ha b hbm
    simp only [List.map_cons, List.map_nil, List.mem_singleton] at hbm
    subst hbm
    exact hInv.2 a ha
  · intro e he
    simp only [energies, anneal_record, List.map_append, List.mem_append] at he
    rcases he with he | he
    · exact le_trans (by simp [anneal_record]) (hInv.2 e he)
    · simp only [List.map_cons, List.map_nil, List.mem_singleton] at he
      subst he
      simp [anneal_record]

/-- Claim C3: across all Steps recorded during a single simulated-annealing
run, the sequence of best-ever metric values is monotonically
non-increasing — every later recorded energy is at most every earlier one,
in particular for consecutive recorded Steps.  Quantified over every
oracle stream (random draws), every parameter set, every board size and
every starting configuration. -/
theorem claim_C3 (P : AnnealParams) (stream : Nat → AnnealOracle) (n : Nat)
    (start : List Queen) (i : Nat)
    (hi : i + 1 < (energies (simulated_annealing_run P stream n start)).length) :
    (energies (simulated_annealing_run P stream n start)).get ⟨i + 1, hi⟩ ≤
      (energies (simulated_annealing_run P stream n start)).get
        ⟨i, Nat.lt_of_succ_lt hi⟩ := by
  have h := (run_energyInv P stream n start).1
  rw [List.pairwise_iff_get] at h
  exact h ⟨i, _⟩ ⟨i + 1, _⟩ (by simp)

/-- Witness for C3: a concrete run (initial board with two attacking
queens, iteration budget 0, so the initial and final records remain)
whose two recorded energies are non-increasing. -/
theorem claim_C3_witness :
    (0 + 1 < (energies (simulated_annealing_run
        ⟨1, 1 / 2, 1 / 10, 0⟩ (fun _ => ⟨1, 1, false⟩) 2 [(0, 0), (0, 1)])).length) ∧
    (energies (simulated_annealing_run
        ⟨1, 1 / 2, 1 / 10, 0⟩ (fun _ => ⟨1, 1, false⟩) 2 [(0, 0), (0, 1)])).get
        ⟨0 + 1, by decide⟩ ≤
      (energies (simulated_annealing_run
        ⟨1, 1 / 2, 1 / 10, 0⟩ (fun _ => ⟨1, 1, false⟩) 2 [(0, 0), (0, 1)])).get
        ⟨0, by decide⟩ :=
  ⟨by decide, claim_C3 ⟨1, 1 / 2, 1 / 10, 0⟩ (fun _ => ⟨1, 1, false⟩) 2 [(0, 0), (0, 1)]
    0 (by decide)⟩

/-- Counterexample for claim C4: at the partial configuration `[(0, 0)]`
the cell `(0, 2)` shares row 0 with the placed queen, so the claimed
characterisation (`claim_safe`) says unsafe, yet the code's `is_safe`
returns true: the source never compares rows. -/
theorem claim_C4_counterexample :
    is_safe [((0 : Nat), (0 : Nat))] 0 2 = true ∧
      claim_safe [((0 : Nat), (0 : Nat))] 0 2 = false := by
  decide

/-- Claim C4 (amended): `is_safe(partial, row, col)` returns true iff no
already-placed queen occupies column `col` or lies on either diagonal
through `(row, col)`; a queen that merely shares the row (but neither the
column nor a diagonal) does not make the cell unsafe.  (In the solvers a
shared row never arises because queens are placed one per row.) -/
theorem claim_C4 (sol : List Queen) (row col : Nat) :
    is_safe sol row col = true ↔
      ∀ q ∈ sol, q.2 ≠ col ∧
        ((q.1 : Int) - (row : Int)).natAbs ≠ ((q.2 : Int) - (col : Int)).natAbs := by
  simp [is_safe, List.all_eq_true, not_or]

/-- Claim C5 evaluated at its failing input: manual placement can build
the distinct-column configuration `[(0,1), (0,0), (0,2), (0,3)]` (clicked
in that order), and one `get_random_neighbor` move (queen_idx 0, new_row
1) rewrites slot 0 to column 0, duplicating column 0: the distinct-column
invariant is not preserved. -/
theorem claim_C5_code_bug_eval :
    (([((0 : Nat), (1 : Nat)), (0, 0), (0, 2), (0, 3)] : List Queen).map Prod.snd).Nodup ∧
    get_random_neighbor [((0 : Nat), (1 : Nat)), (0, 0), (0, 2), (0, 3)] 0 1 =
      [(1, 0), (0, 0), (0, 2), (0, 3)] ∧
    ¬ (((get_random_neighbor [((0 : Nat), (1 : Nat)), (0, 0), (0, 2), (0, 3)] 0 1).map
        Prod.snd).Nodup) := by
  decide

theorem next_step_cursor (s : Replay) (h : s.current_step < s.steps.length - 1) :
    (next_step s).current_step = s.current_step + 1 ∧ (next_step s).steps = s.steps := by
  simp [next_step, h]

theorem next_iter (k : Nat) : ∀ s : Replay, s.current_step + k ≤ s.steps.length - 1 →
    (next_step^[k] s).current_step = s.current_step + k ∧ (next_step^[k] s).steps = s.steps := by
  induction k with
  | zero => intro s _; simp
  | succ k ih =>
    intro s hs
    rw [Function.iterate_succ_apply]
    have hlt : s.current_step < s.steps.length - 1 := by omega
    obtain ⟨h1, h2⟩ := next_step_cursor s hlt
    have hlen : (next_step s).steps.length = s.steps.length := by rw [h2]
    obtain ⟨h3, h4⟩ := ih (next_step s) (by omega)
    exact ⟨by omega, by rw [h4, h2]⟩

theorem prev_iter (k : Nat) : ∀ s : Replay, k ≤ s.current_step →
    (prev_step^[k] s).current_step = s.current_step - k ∧ (prev_step^[k] s).steps = s.steps := by
  induction k with
  | zero => intro s _; simp
  | succ k ih =>
    intro s hs
    rw [Function.iterate_succ_apply]
    have h0 : 0 < s.current_step := by omega
    have h1 : (prev_step s).current_step = s.current_step - 1 ∧ (prev_step s).steps = s.steps := by
      simp [prev_step, h0]
    obtain ⟨h3, h4⟩ := ih (prev_step s) (by omega)
    exact ⟨by omega, by rw [h4, h1.2]⟩

/-- Claim C7: from any cursor position, `next()` applied `k` times then
`previous()` applied `k` times returns the cursor to its original
position with the step at the cursor (`current()`) unchanged, provided
`k` does not exceed the number of recorded steps ahead of the cursor;
moreover `next()` is a no-op at (or past) the tail and `previous()` is a
no-op at position 0. -/
theorem claim_C7 (s t t2 : Replay) (k : Nat)
    (hk : s.current_step + k ≤ s.steps.length - 1)
    (hend : t.steps.length - 1 ≤ t.current_step)
    (h0 : t2.current_step = 0) :
    (prev_step^[k] (next_step^[k] s)).current_step = s.current_step ∧
    current_of (prev_step^[k] (next_step^[k] s)) = current_of s ∧
    next_step t = t ∧ prev_step t2 = t2 := by
  obtain ⟨h1, h2⟩ := next_iter k s hk
  obtain ⟨h3, h4⟩ := prev_iter k (next_step^[k] s) (by omega)
  refine ⟨by omega, ?_, ?_, ?_⟩
  · unfold current_of
    rw [h4, h2, h3, h1]
    congr 1
    omega
  · simp only [next_step]
    split_ifs with hlt
    · omega
    · rfl
  · simp [prev_step, h0]

/-- Witness for C7: a two-step history with the cursor at 0, `k = 1`,
alongside a saturated cursor (no-op `next`) and a cursor at 0 (no-op
`previous`). -/
theorem claim_C7_witness :
    (prev_step^[1] (next_step^[1]
        ⟨[(StepAction.place, (0, 0), [(0, 0)]), (StepAction.place, (1, 1), [(0, 0), (1, 1)])],
          0, [(0, 0)]⟩)).current_step =
      (⟨[(StepAction.place, (0, 0), [(0, 0)]), (StepAction.place, (1, 1), [(0, 0), (1, 1)])],
          0, [(0, 0)]⟩ : Replay).current_step ∧
    current_of (prev_step^[1] (next_step^[1]
        ⟨[(StepAction.place, (0, 0), [(0, 0)]), (StepAction.place, (1, 1), [(0, 0), (1, 1)])],
          0, [(0, 0)]⟩)) =
      current_of ⟨[(StepAction.place, (0, 0), [(0, 0)]), (StepAction.place, (1, 1), [(0, 0), (1, 1)])],
          0, [(0, 0)]⟩ ∧
    next_step ⟨[(StepAction.place, (0, 0), [(0, 0)])], 0, [(0, 0)]⟩ =
      ⟨[(StepAction.place, (0, 0), [(0, 0)])], 0, [(0, 0)]⟩ ∧
    prev_step ⟨[(StepAction.place, (0, 0), [(0, 0)])], 0, [(0, 0)]⟩ =
      ⟨[(StepAction.place, (0, 0), [(0, 0)])], 0, [(0, 0)]⟩ :=
  claim_C7
    ⟨[(StepAction.place, (0, 0), [(0, 0)]), (StepAction.place, (1, 1), [(0, 0), (1, 1)])],
      0, [(0, 0)]⟩
    ⟨[(StepAction.place, (0, 0), [(0, 0)])], 0, [(0, 0)]⟩
    ⟨[(StepAction.place, (0, 0), [(0, 0)])], 0, [(0, 0)]⟩
    1 (by decide) (by decide) (by decide)

/-- Counterexample for claim C2: in the `tiles.py` loop the energy
difference is taken against the CURRENT energy, not the best-so-far.  At
the reachable state `c2state` (current 12, best 10, temperature 0.995^2)
the neighbor of Manhattan distance 11 is accepted unconditionally by the
code (`energy_diff = 11 - 12 < 0`), while the rule stated by the claim
(`d = 11 - 10 = 1 >= 0`, uniform draw `u = 0.9 >= exp(-d/T)`) rejects it:
the two rules genuinely disagree on this iteration. -/
theorem claim_C2_counterexample :
    calculate_heuristic (tiles_neighbor c2state.current_puzzle 1).state = 11 ∧
    c2state.current_energy = 12 ∧ c2state.best_energy = 10 ∧
    (tiles_sa_step tilesDefaults c2state ⟨1, true⟩).current_puzzle =
      tiles_neighbor c2state.current_puzzle 1 ∧
    ¬ metropolis
        (claim_energy_diff (calculate_heuristic (tiles_neighbor c2state.current_puzzle 1).state)
          c2state.best_energy)
        ((c2state.temperature : ℚ) : ℝ) (9 / 10) := by
  have hn : tiles_neighbor c2state.current_puzzle 1 = c2nbr := by decide
  have he : calculate_heuristic c2nbr.state = 11 := by decide
  have hg : tiles_guard tilesDefaults c2state := by
    refine ⟨by norm_num [c2state, tilesDefaults], by decide, by decide⟩
  refine ⟨by rw [hn]; exact he, by decide, by decide, ?_, ?_⟩
  · simp only [tiles_sa_step, if_pos hg]
    rw [hn, he]
    norm_num [tiles_energy_diff, c2state]
  · rw [hn, he]
    have hT : ((c2state.temperature : ℚ) : ℝ) = 39601 / 40000 := by
      norm_num [c2state]
    have hd : claim_energy_diff 11 c2state.best_energy = 1 := by decide
    rw [hT, hd]
    have h2 : Real.exp (-1 : ℝ) < 1 / 2 := by
      rw [Real.exp_neg]
      have hgt := Real.exp_one_gt_d9
      have hpos : (0 : ℝ) < Real.exp 1 := Real.exp_pos 1
      rw [inv_lt_comm₀ hpos (by norm_num)]
      linarith
    have h1 : Real.exp (-((1 : ℤ) : ℝ) / (39601 / 40000)) ≤ Real.exp (-1) := by
      apply Real.exp_le_exp.2
      norm_num
    refine not_or.2 ⟨by norm_num, not_lt.2 ?_⟩
    calc Real.exp (-((1 : ℤ) : ℝ) / (39601 / 40000)) ≤ Real.exp (-1) := h1
      _ ≤ 1 / 2 := le_of_lt h2
      _ ≤ 9 / 10 := by norm_num

/-- Claim C2 (amended): in `queen_annealing.py` the energy difference of
an iteration is taken against the best-so-far energy
(`anneal_energy_diff`, which coincides with the claimed
`claim_energy_diff`), whereas in `tiles.py` it is taken against the
CURRENT (working) energy (`tiles_energy_diff`); in both loops the
generated neighbor becomes the new current configuration exactly when
the difference is negative or the `random.random() < exp(-d/T)` draw
succeeds (the oracle field `accept_worse`), and otherwise the current
configuration is kept. -/
theorem claim_C2 (P : AnnealParams) (s : AnnealState) (o : AnnealOracle)
    (Q : TilesParams) (t : TilesSAState) (u : TilesOracle)
    (hg : anneal_guard P s) (ht : tiles_guard Q t) :
    ((anneal_step P s o).current_state =
      if anneal_energy_diff
          (count_attacks (get_random_neighbor s.current_state (o.queen_idx % s.n) (o.new_row % s.n)))
          s.best_energy < 0 ∨ o.accept_worse = true
       then get_random_neighbor s.current_state (o.queen_idx % s.n) (o.new_row % s.n)
       else s.current_state) ∧
    ((tiles_sa_step Q t u).current_puzzle =
      if tiles_energy_diff (calculate_heuristic (tiles_neighbor t.current_puzzle u.choice).state)
          t.current_energy < 0 ∨ u.accept_worse = true
       then tiles_neighbor t.current_puzzle u.choice
       else t.current_puzzle) ∧
    anneal_energy_diff = claim_energy_diff := by
  refine ⟨?_, ?_, rfl⟩
  · simp only [anneal_step, anneal_record, if_pos hg]
    split_ifs <;> simp_all
  · simp only [tiles_sa_step, if_pos ht]
    split_ifs <;> simp_all

/-- Witness for C2 (amended): a concrete annealing iteration (two queens
attacking on a 2-board, temperature 1 above minimum 0) and a concrete
tiles iteration at the default start, both with their guards satisfied. -/
theorem claim_C2_witness :
    ((anneal_step ⟨1, 1, 0, 5⟩
        ⟨2, [(0, 0), (0, 1)], [(0, 0), (0, 1)], 2, 1, 0, []⟩ ⟨0, 1, false⟩).current_state =
      if anneal_energy_diff
          (count_attacks (get_random_neighbor [((0 : Nat), (0 : Nat)), (0, 1)] (0 % 2) (1 % 2)))
          2 < 0 ∨ false = true
       then get_random_neighbor [((0 : Nat), (0 : Nat)), (0, 1)] (0 % 2) (1 % 2)
       else [(0, 0), (0, 1)]) ∧
    ((tiles_sa_step ⟨1, 1, 0, 5⟩ (tiles_sa_init ⟨1, 1, 0, 5⟩ (mkPuzzle none)) ⟨1, false⟩).current_puzzle =
      if tiles_energy_diff
          (calculate_heuristic
            (tiles_neighbor (tiles_sa_init ⟨1, 1, 0, 5⟩ (mkPuzzle none)).current_puzzle 1).state)
          (tiles_sa_init ⟨1, 1, 0, 5⟩ (mkPuzzle none)).current_energy < 0 ∨ false = true
       then tiles_neighbor (tiles_sa_init ⟨1, 1, 0, 5⟩ (mkPuzzle none)).current_puzzle 1
       else (tiles_sa_init ⟨1, 1, 0, 5⟩ (mkPuzzle none)).current_puzzle) ∧
    anneal_energy_diff = claim_energy_diff :=
  claim_C2 ⟨1, 1, 0, 5⟩ ⟨2, [(0, 0), (0, 1)], [(0, 0), (0, 1)], 2, 1, 0, []⟩ ⟨0, 1, false⟩
    ⟨1, 1, 0, 5⟩ (tiles_sa_init ⟨1, 1, 0, 5⟩ (mkPuzzle none)) ⟨1, false⟩
    (by refine ⟨by decide, by decide, by decide⟩)
    (by refine ⟨?_, by decide, by decide⟩; · show (0 : ℚ) < _; decide)

theorem anneal_step_temp (P : AnnealParams) (s : AnnealState) (o : AnnealOracle) :
    (anneal_step P s o).current_temperature = s.current_temperature * P.cooling_rate ∨
      (anneal_step P s o).current_temperature = s.current_temperature := by
  simp only [anneal_step, anneal_record]
  split_ifs <;> simp

theorem tiles_step_temp (Q : TilesParams) (t : TilesSAState) (u : TilesOracle) :
    (tiles_sa_step Q t u).temperature = t.temperature * Q.cooling_rate ∨
      (tiles_sa_step Q t u).temperature = t.temperature := by
  simp only [tiles_sa_step]
  split_ifs <;> simp

theorem anneal_loop_temp_pos (P : AnnealParams) (stream : Nat → AnnealOracle)
    (hr : 0 < P.cooling_rate) :
    ∀ (fuel : Nat) (s : AnnealState), 0 < s.current_temperature →
      0 < (anneal_loop P stream fuel s).current_temperature := by
  intro fuel
  induction fuel with
  | zero => intro s h; exact h
  | succ fuel ih =>
    intro s h
    rw [anneal_loop]
    split_ifs with hgg
    · refine ih _ ?_
      rcases anneal_step_temp P s (stream s.current_iteration) with ht | ht <;> rw [ht]
      · exact mul_pos h hr
      · exact h
    · exact h

theorem tiles_loop_temp_pos (Q : TilesParams) (stream : Nat → TilesOracle)
    (hr : 0 < Q.cooling_rate) :
    ∀ (fuel : Nat) (t : TilesSAState), 0 < t.temperature →
      0 < (tiles_sa_loop Q stream fuel t).temperature := by
  intro fuel
  induction fuel with
  | zero => intro t h; exact h
  | succ fuel ih =>
    intro t h
    rw [tiles_sa_loop]
    split_ifs with hgg
    · refine ih _ ?_
      rcases tiles_step_temp Q t (stream t.iteration) with ht | ht <;> rw [ht]
      · exact mul_pos h hr
      · exact h
    · exact h

/-- Claim C8: with initial temperature T0 > 0 and cooling rate r in
(0,1), every state reached by either annealing loop has a strictly
positive temperature (temperatures follow T0 * r^k).  The acceptance test
of an iteration reads the temperature of the state it starts from, so
`exp(-d/T)` is never evaluated at a non-positive temperature and no
division by a non-positive temperature occurs; the claim's premise
"temperature ≤ 0" never holds in such a run, so its rejection clause is
(vacuously) satisfied. -/
theorem claim_C8 (P : AnnealParams) (Q : TilesParams)
    (hP0 : 0 < P.initial_temperature) (hPr : 0 < P.cooling_rate) (hPr1 : P.cooling_rate < 1)
    (hQ0 : 0 < Q.initial_temperature) (hQr : 0 < Q.cooling_rate) (hQr1 : Q.cooling_rate < 1)
    (streamA : Nat → AnnealOracle) (streamT : Nat → TilesOracle)
    (n : Nat) (start : List Queen) (p : EightTilesPuzzle) (fuelA fuelT : Nat) :
    0 < (anneal_loop P streamA fuelA (anneal_init P n start)).current_temperature ∧
    0 < (tiles_sa_loop Q streamT fuelT (tiles_sa_init Q p)).temperature := by
  constructor
  · refine anneal_loop_temp_pos P streamA hPr fuelA _ ?_
    simp [anneal_init, anneal_record, hP0]
  · refine tiles_loop_temp_pos Q streamT hQr fuelT _ ?_
    simp [tiles_sa_init, hQ0]

/-- Witness for C8: the default parameter sets of both files (T0 = 100,
r = 0.95 and T0 = 1, r = 0.995), a trivial oracle, small boards, one
loop iteration. -/
theorem claim_C8_witness :
    0 < (anneal_loop annealDefaults (fun _ => ⟨0, 1, false⟩) 1
        (anneal_init annealDefaults 2 [(0, 0), (0, 1)])).current_temperature ∧
    0 < (tiles_sa_loop tilesDefaults (fun _ => ⟨0, false⟩) 1
        (tiles_sa_init tilesDefaults (mkPuzzle none))).temperature :=
  claim_C8 annealDefaults tilesDefaults
    (by norm_num [annealDefaults]) (by norm_num [annealDefaults]) (by norm_num [annealDefaults])
    (by norm_num [tilesDefaults]) (by norm_num [tilesDefaults]) (by norm_num [tilesDefaults])
    (fun _ => ⟨0, 1, false⟩) (fun _ => ⟨0, false⟩) 2 [(0, 0), (0, 1)] (mkPuzzle none) 1 1

/-- Counterexample for claim C6: the Manhattan distance of the fixed
initial 8-puzzle state `[[5,1,3],[4,2,8],[6,7,#]]` to the goal is 10, not
the 12 stated by the claim (5 contributes 2, 1 contributes 1, 2
contributes 1, 8 contributes 2, 6 contributes 3, 7 contributes 1; 3 and 4
are already placed). -/
theorem claim_C6_counterexample :
    ¬ (calculate_heuristic tilesInitial = 12) ∧ calculate_heuristic tilesInitial = 10 := by
  decide

theorem tiles_step_inv (Q : TilesParams) (t : TilesSAState) (u : TilesOracle)
    (h : TilesInv t) :
    TilesInv (tiles_sa_step Q t u) ∧ (tiles_sa_step Q t u).best_energy ≤ t.best_energy := by
  obtain ⟨h1, h2⟩ := h
  simp only [tiles_sa_step]
  split_ifs with hgg hacc himp
  · exact ⟨⟨rfl, le_rfl⟩, by simpa using le_of_lt himp⟩
  · refine ⟨⟨rfl, ?_⟩, by simp⟩
    simpa using himp
  · exact ⟨⟨h1, h2⟩, by simp⟩
  · exact ⟨⟨h1, h2⟩, le_rfl⟩

theorem tiles_loop_inv (Q : TilesParams) (stream : Nat → TilesOracle) :
    ∀ (fuel : Nat) (t : TilesSAState), TilesInv t →
      TilesInv (tiles_sa_loop Q stream fuel t) ∧
        (tiles_sa_loop Q stream fuel t).best_energy ≤ t.best_energy := by
  intro fuel
  induction fuel with
  | zero => intro t h; exact ⟨h, le_rfl⟩
  | succ fuel ih =>
    intro t h
    rw [tiles_sa_loop]
    split_ifs with hgg
    · obtain ⟨ha, hb⟩ := tiles_step_inv Q t (stream t.iteration) h
      obtain ⟨hc, hd⟩ := ih _ ha
      exact ⟨hc, le_trans hd hb⟩
    · exact ⟨h, le_rfl⟩

/-- Claim C6 (amended): the heuristic of the fixed initial state is 10
(not 12), and every simulated-annealing run seeded on it (any parameters,
any random draws, the Python loop runs at most `max_iterations`
iterations, modelled by the fuel) ends with best-ever metric at most 10,
and exactly 0 whenever the loop stops with the working configuration at
the goal (i.e. the goal was reached before the temperature or iteration
budget ran out). -/
theorem claim_C6 (Q : TilesParams) (stream : Nat → TilesOracle) (fuel : Nat) :
    calculate_heuristic tilesInitial = 10 ∧
    (tiles_sa_loop Q stream fuel (tiles_sa_init Q (mkPuzzle (some tilesInitial)))).best_energy ≤ 10 ∧
    (is_goal (tiles_sa_loop Q stream fuel
        (tiles_sa_init Q (mkPuzzle (some tilesInitial)))).current_puzzle.state = true →
      (tiles_sa_loop Q stream fuel (tiles_sa_init Q (mkPuzzle (some tilesInitial)))).best_energy = 0) := by
  have hinit : TilesInv (tiles_sa_init Q (mkPuzzle (some tilesInitial))) := by
    constructor <;> simp [tiles_sa_init, mkPuzzle]
  obtain ⟨hinv, hle⟩ := tiles_loop_inv Q stream fuel _ hinit
  refine ⟨by decide, ?_, ?_⟩
  · refine le_trans hle ?_
    simp [tiles_sa_init, mkPuzzle]
    decide
  · intro hg
    have hgoal : (tiles_sa_loop Q stream fuel
        (tiles_sa_init Q (mkPuzzle (some tilesInitial)))).current_puzzle.state = goal_state := by
      simpa [is_goal] using hg
    have h0 : calculate_heuristic goal_state = 0 := by decide
    have h1 := hinv.1
    have h2 := hinv.2
    rw [hgoal, h0] at h1
    omega

theorem getD_row_length (g : Grid) (hwf : WellFormed3 g) (i : Nat) (hi : i < 3) :
    (g.getD i []).length = 3 := by
  have hlen : i < g.length := by rw [hwf.1]; exact hi
  rw [List.getD_eq_getElem _ _ hlen]
  exact hwf.2 _ (List.getElem_mem hlen)

theorem getCell_setCell_self (g : Grid) (hwf : WellFormed3 g) (i j : Nat)
    (hi : i < 3) (hj : j < 3) (v : Tile) : getCell (setCell g i j v) i j = v := by
  have hlen : i < g.length := by rw [hwf.1]; exact hi
  have hrow : j < (g.getD i []).length := by rw [getD_row_length g hwf i hi]; exact hj
  have hlen2 : i < (g.set i ((g.getD i []).set j v)).length := by simpa using hlen
  have hrow2 : j < ((g.getD i []).set j v).length := by simpa using hrow
  unfold getCell setCell
  rw [List.getD_eq_getElem _ _ hlen2, List.getElem_set_self hlen2,
    List.getD_eq_getElem _ _ hrow2, List.getElem_set_self hrow2]

theorem setCell_wf (g : Grid) (hwf : WellFormed3 g) (i j : Nat) (hi : i < 3) (v : Tile) :
    WellFormed3 (setCell g i j v) := by
  refine ⟨by simp [setCell, hwf.1], ?_⟩
  intro r hr
  rcases List.mem_or_eq_of_mem_set hr with h | h
  · exact hwf.2 r h
  · subst h
    rw [List.length_set]
    exact getD_row_length g hwf i hi

theorem possible_moves_mem (i j : Nat) (m : Int × Int) (hm : m ∈ possible_moves i j) :
    (m = (-1, 0) ∧ 0 < i) ∨ (m = (1, 0) ∧ i < 2) ∨ (m = (0, -1) ∧ 0 < j) ∨
      (m = (0, 1) ∧ j < 2) := by
  unfold possible_moves at hm
  split_ifs at hm <;> simp_all <;> tauto

theorem possible_moves_ne_nil (i j : Nat) : possible_moves i j ≠ [] := by
  by_cases h : 0 < i
  · simp [possible_moves, h]
  · have h2 : i < 2 := by omega
    simp [possible_moves, h, h2]

theorem chosen_move_mem (i j : Nat) (choice : Nat) :
    (possible_moves i j).getD (choice % (possible_moves i j).length) (1, 0) ∈
      possible_moves i j := by
  have hpos : 0 < (possible_moves i j).length :=
    List.length_pos.2 (possible_moves_ne_nil i j)
  have hlt : choice % (possible_moves i j).length < (possible_moves i j).length :=
    Nat.mod_lt _ hpos
  rw [List.getD_eq_getElem?_getD, List.getElem?_eq_getElem hlt]
  exact List.getElem_mem hlt

/-- Claim C10: a puzzle produced by the constructor has `blank_pos`
pointing at the blank marker, and `get_random_neighbor` updates
`blank_pos` to exactly the cell the blank was swapped into — which in the
new grid again holds the blank, for every well-formed puzzle satisfying
the invariant and every move draw. -/
theorem claim_C10 (init : Option Grid) (bi bj : Nat)
    (hb : (mkPuzzle init).blank_pos = some (bi, bj))
    (p : EightTilesPuzzle) (choice : Nat) (i j : Nat)
    (hp : p.blank_pos = some (i, j)) (hi : i < 3) (hj : j < 3)
    (hinv : getCell p.state i j = none) (hwf : WellFormed3 p.state) :
    getCell (mkPuzzle init).state bi bj = none ∧
    (tiles_neighbor p choice).blank_pos =
      some ((((i : Int) +
          ((possible_moves i j).getD (choice % (possible_moves i j).length) (1, 0)).1).toNat),
        (((j : Int) +
          ((possible_moves i j).getD (choice % (possible_moves i j).length) (1, 0)).2).toNat)) ∧
    getCell (tiles_neighbor p choice).state
      (((i : Int) +
        ((possible_moves i j).getD (choice % (possible_moves i j).length) (1, 0)).1).toNat)
      (((j : Int) +
        ((possible_moves i j).getD (choice % (possible_moves i j).length) (1, 0)).2).toNat) =
      none := by
  generalize hmdef : (possible_moves i j).getD (choice % (possible_moves i j).length) (1, 0) = m
  have hmm : m ∈ possible_moves i j := hmdef ▸ chosen_move_mem i j choice
  have hbounds := possible_moves_mem i j m hmm
  have hi2 : ((i : Int) + m.1).toNat < 3 := by
    rcases hbounds with ⟨rfl, h⟩ | ⟨rfl, h⟩ | ⟨rfl, h⟩ | ⟨rfl, h⟩ <;> simp <;> omega
  have hj2 : ((j : Int) + m.2).toNat < 3 := by
    rcases hbounds with ⟨rfl, h⟩ | ⟨rfl, h⟩ | ⟨rfl, h⟩ | ⟨rfl, h⟩ <;> simp <;> omega
  refine ⟨?_, ?_, ?_⟩
  · unfold mkPuzzle at hb ⊢
    simp only at hb ⊢
    have h1 := List.find?_some hb
    simpa using h1
  · simp only [tiles_neighbor, hp, apply_move]
    rw [hmdef]
  · simp only [tiles_neighbor, hp, apply_move]
    rw [hmdef, hinv]
    exact getCell_setCell_self _ (setCell_wf _ hwf i j hi _) _ _ hi2 hj2 _

/-- Witness for C10: the default puzzle (blank at `(2, 2)`) and its
neighbor under move draw 0 (which picks the up move, blank to `(1, 2)`). -/
theorem claim_C10_witness :
    getCell (mkPuzzle none).state 2 2 = none ∧
    (tiles_neighbor (mkPuzzle none) 0).blank_pos =
      some ((((2 : Nat) : Int) +
          ((possible_moves 2 2).getD (0 % (possible_moves 2 2).length) (1, 0)).1).toNat,
        (((2 : Nat) : Int) +
          ((possible_moves 2 2).getD (0 % (possible_moves 2 2).length) (1, 0)).2).toNat) ∧
    getCell (tiles_neighbor (mkPuzzle none) 0).state
      ((((2 : Nat) : Int) +
        ((possible_moves 2 2).getD (0 % (possible_moves 2 2).length) (1, 0)).1).toNat)
      ((((2 : Nat) : Int) +
        ((possible_moves 2 2).getD (0 % (possible_moves 2 2).length) (1, 0)).2).toNat) =
      none :=
  claim_C10 none 2 2 (by decide) (mkPuzzle none) 0 2 2 (by decide) (by decide) (by decide)
    (by decide) (by decide)

/-- Counterexample for claim C9: in `queens.py` a click at window
position `(0, 799)` with `n = 6` passes the routing guard
(`pos[0] < BOARD_SIZE`, first conjunct), maps to row `799 // 133 = 6` —
out of range for a 6-board — and `is_safe` has no bounds check, so the
queen `(6, 0)` is appended and a step recorded: the request is accepted
and mutates state instead of being declined. -/
theorem claim_C9_counterexample :
    (0 : Nat) < 800 / 6 * 6 ∧
    (handle_manual_placement ⟨6, ⟨[], 0, []⟩⟩ (0, 799)).replay.solution = [(6, 0)] ∧
    ¬ (handle_manual_placement ⟨6, ⟨[], 0, []⟩⟩ (0, 799) = ⟨6, ⟨[], 0, []⟩⟩) := by
  decide

/-- Claim C9 (amended): a manual placement request naming an occupied
column, an out-of-range cell or a full board in `queen_annealing.py`, or
an unsafe cell (which subsumes occupied columns) in `queens.py`, is
declined with no state mutation and no exception; but `queens.py` does
not bounds-check the click row, so a click below the last full cell row
(possible whenever `n` does not divide 800) is accepted out of range. -/
theorem claim_C9 (n row col : Nat) (cs : List Queen) (s : ManualState) (pos : Nat × Nat)
    (h1 : n ≤ row ∨ n ≤ col ∨ (cs.any fun q => q.2 == col) = true ∨ n ≤ cs.length)
    (h2 : is_safe s.replay.solution (pos.2 / (800 / s.n)) (pos.1 / (800 / s.n)) = false) :
    annealing_place n cs row col = cs ∧ handle_manual_placement s pos = s := by
  constructor
  · unfold annealing_place
    split_ifs with ha hb
    · rcases h1 with h | h | h | h
      · omega
      · omega
      · exact absurd hb.1 (by simp [h])
      · exact absurd hb.2 (by omega)
    · rfl
    · rfl
  · simp only [handle_manual_placement]
    rw [if_neg (by simp [h2])]

/-- Witness for C9: an occupied-column request on the annealing board
(column 0 already holds a queen) and an occupied-column click in the
`queens.py` GUI (click cell `(0, 0)` with a queen already at `(0, 0)`). -/
theorem claim_C9_witness :
    annealing_place 4 [((1 : Nat), (0 : Nat))] 0 0 = [(1, 0)] ∧
    handle_manual_placement ⟨4, ⟨[], 0, [(0, 0)]⟩⟩ (0, 0) = ⟨4, ⟨[], 0, [(0, 0)]⟩⟩ :=
  claim_C9 4 0 0 [(1, 0)] ⟨4, ⟨[], 0, [(0, 0)]⟩⟩ (0, 0) (by decide) (by decide)

theorem is_safe_iff (sol : List Queen) (row col : Nat) :
    is_safe sol row col = true ↔
      ∀ q ∈ sol, q.2 ≠ col ∧
        ((q.1 : Int) - (row : Int)).natAbs ≠ ((q.2 : Int) - (col : Int)).natAbs := by
  simp [is_safe, List.all_eq_true, not_or]

theorem Partial_nil : Partial [] := ⟨by intro k h; simp at h, List.Pairwise.nil⟩

theorem Partial_append (sol : List Queen) (c : Nat) (h : Partial sol)
    (hs : is_safe sol sol.length c = true) : Partial (sol ++ [(sol.length, c)]) := by
  rw [is_safe_iff] at hs
  constructor
  · intro k hk
    rcases Nat.lt_or_ge k sol.length with hlt | hge
    · rw [List.get_append_left]
      exact h.1 k hlt
    · have hk2 : k < sol.length + 1 := by simpa using hk
      have hkeq : k = sol.length := by omega
      subst hkeq
      simp
  · rw [List.pairwise_append]
    refine ⟨h.2, List.pairwise_singleton _ _, ?_⟩
    intro a ha b hb
    simp only [List.mem_singleton] at hb
    subst hb
    exact ⟨(hs a ha).1, (hs a ha).2⟩

theorem try_cols_sound (next : List Queen → Option (List Queen)) (row : Nat)
    (sol : List Queen) : ∀ (cols : List Nat) (out : List Queen),
    try_cols next row sol cols = some out →
    ∃ c ∈ cols, is_safe sol row c = true ∧ next (sol ++ [(row, c)]) = some out := by
  intro cols
  induction cols with
  | nil => intro out hout; simp [try_cols] at hout
  | cons c cs ih =>
    intro out hout
    rw [try_cols] at hout
    split_ifs at hout with hsafe
    · rcases hnext : next (sol ++ [(row, c)]) with _ | s
      · rw [hnext] at hout
        obtain ⟨d, hd, h1, h2⟩ := ih out hout
        exact ⟨d, List.mem_cons_of_mem _ hd, h1, h2⟩
      · rw [hnext] at hout
        cases hout
        exact ⟨c, List.mem_cons_self c cs, hsafe, hnext⟩
    · obtain ⟨d, hd, h1, h2⟩ := ih out hout
      exact ⟨d, List.mem_cons_of_mem _ hd, h1, h2⟩

theorem try_cols_complete (next : List Queen → Option (List Queen)) (row : Nat)
    (sol : List Queen) : ∀ (cols : List Nat),
    (∃ c ∈ cols, is_safe sol row c = true ∧ (next (sol ++ [(row, c)])).isSome) →
    (try_cols next row sol cols).isSome := by
  intro cols
  induction cols with
  | nil => rintro ⟨c, hc, -, -⟩; simp at hc
  | cons c cs ih =>
    rintro ⟨d, hd, h1, h2⟩
    rw [try_cols]
    rcases List.mem_cons.1 hd with rfl | hmem
    · rw [if_pos h1]
      rcases hnext : next (sol ++ [(row, d)]) with _ | s
      · rw [hnext] at h2; simp at h2
      · simp
    · split_ifs with hsafe
      · rcases hnext : next (sol ++ [(row, c)]) with _ | s
        · exact ih ⟨d, hmem, h1, h2⟩
        · simp
      · exact ih ⟨d, hmem, h1, h2⟩

theorem btAux_sound (n : Nat) : ∀ (fuel row : Nat) (sol out : List Queen),
    row = sol.length → row ≤ n → Partial sol →
    backtrack_aux n fuel row sol = some out →
    out.length = n ∧ Partial out := by
  intro fuel
  induction fuel with
  | zero =>
    intro row sol out hrow hle hp hout
    rw [backtrack_aux] at hout
    split_ifs at hout with hn
    · cases hout
      exact ⟨by omega, hp⟩
  | succ fuel ih =>
    intro row sol out hrow hle hp hout
    rw [backtrack_aux] at hout
    split_ifs at hout with hn
    · cases hout
      exact ⟨by omega, hp⟩
    · obtain ⟨c, hc, hsafe, hnext⟩ := try_cols_sound _ _ _ _ _ hout
      have hrow2 : row < n := by
        rcases Nat.lt_or_ge row n with h | h
        · exact h
        · omega
      subst hrow
      exact ih _ _ _ (by simp) (by omega) (Partial_append sol c hp hsafe) hnext

theorem btAux_complete (n : Nat) (F : Nat → Nat) (hF : goodCols n F) :
    ∀ (fuel row : Nat), fuel = n - row → row ≤ n →
    (backtrack_aux n fuel row ((List.range row).map (fun k => (k, F k)))).isSome := by
  intro fuel
  induction fuel with
  | zero =>
    intro row hfuel hle
    have hn : row = n := by omega
    rw [backtrack_aux, if_pos hn]
    simp
  | succ fuel ih =>
    intro row hfuel hle
    rw [backtrack_aux]
    split_ifs with hn
    · simp
    · have hrow : row < n := by omega
      apply try_cols_complete
      refine ⟨F row, List.mem_range.2 (hF.1 row hrow), ?_, ?_⟩
      · rw [is_safe_iff]
        intro q hq
        simp only [List.mem_map, List.mem_range] at hq
        obtain ⟨k, hk, rfl⟩ := hq
        obtain ⟨ha, hb⟩ := hF.2 k row hk hrow
        exact ⟨ha, by omega⟩
      · have hr : (List.range row).map (fun k => (k, F k)) ++ [(row, F row)] =
            (List.range (row + 1)).map (fun k => (k, F k)) := by
          rw [List.range_succ, List.map_append]
          simp
        rw [hr]
        exact ih (row + 1) (by omega) (by omega)

theorem backtrack_isSome (n : Nat) (F : Nat → Nat) (hF : goodCols n F) :
    (backtrack n).isSome := by
  have h := btAux_complete n F hF n 0 (by omega) (by omega)
  simpa [backtrack] using h

theorem count_attacks_zero_of_pairwise : ∀ (l : List Queen),
    l.Pairwise (fun a b => pair_attacks a b = 0) → count_attacks l = 0 := by
  intro l
  induction l with
  | nil => intro _; rfl
  | cons q rest ih =>
    intro h
    rw [List.pairwise_cons] at h
    rw [count_attacks]
    have hsum : (rest.map (pair_attacks q)).sum = 0 := by
      apply List.sum_eq_zero
      intro x hx
      simp only [List.mem_map] at hx
      obtain ⟨b, hb, rfl⟩ := hx
      exact h.1 b hb
    rw [hsum, ih h.2]

theorem Partial_count_attacks (sol : List Queen) (h : Partial sol) :
    count_attacks sol = 0 := by
  apply count_attacks_zero_of_pairwise
  have hrows : sol.Pairwise (fun a b => a.1 ≠ b.1) := by
    rw [List.pairwise_iff_get]
    intro i j hij
    have hi := h.1 i.1 i.2
    have hj := h.1 j.1 j.2
    simp only [Fin.eta] at hi hj
    omega
  have hdiag := h.2
  rw [List.pairwise_iff_get] at hrows hdiag ⊢
  intro i j hij
  have h1 := hrows i j hij
  have h2 := hdiag i j hij
  unfold pair_attacks
  rw [if_neg h1, if_neg h2.2]

theorem evenCols_good (n : Nat) (h2 : n % 2 = 0) (h6 : n % 6 ≠ 2) :
    goodCols n (evenCols n) := by
  constructor
  · intro k hk
    unfold evenCols
    split_ifs <;> omega
  · intro i j hij hjn
    unfold evenCols
    split_ifs <;> omega

theorem oddCols_good (n : Nat) (h2 : n % 2 = 1) (h6 : n % 6 ≠ 3) :
    goodCols n (oddCols n) := by
  constructor
  · intro k hk
    unfold oddCols evenCols
    split_ifs <;> omega
  · intro i j hij hjn
    unfold oddCols evenCols
    split_ifs <;> omega

theorem cols2_good (m : Nat) (hm : 1 ≤ m) : goodCols (6 * m + 2) (cols2 m) := by
  constructor
  · intro k hk
    unfold cols2
    split_ifs <;> omega
  · intro i j hij hjn
    unfold cols2
    split_ifs <;> omega

theorem cols3_good (m : Nat) (hm : 1 ≤ m) : goodCols (6 * m + 3) (cols3 m) := by
  constructor
  · intro k hk
    unfold cols3
    split_ifs <;> omega
  · intro i j hij hjn
    unfold cols3
    split_ifs <;> omega

theorem goodCols_exists (n : Nat) (h2 : n ≠ 2) (h3 : n ≠ 3) : ∃ F, goodCols n F := by
  rcases Nat.even_or_odd n with he | ho
  · by_cases h6 : n % 6 = 2
    · obtain ⟨m, rfl⟩ : ∃ m, n = 6 * m + 2 := ⟨(n - 2) / 6, by omega⟩
      have hm : 1 ≤ m := by omega
      exact ⟨cols2 m, cols2_good m hm⟩
    · exact ⟨evenCols n, evenCols_good n (Nat.even_iff.1 he) h6⟩
  · by_cases h6 : n % 6 = 3
    · obtain ⟨m, rfl⟩ : ∃ m, n = 6 * m + 3 := ⟨(n - 3) / 6, by omega⟩
      have hm : 1 ≤ m := by omega
      exact ⟨cols3 m, cols3_good m hm⟩
    · exact ⟨oddCols n, oddCols_good n (Nat.odd_iff.1 ho) h6⟩

/-- Claim C1: for every `n ≥ 1`, the backtracking solver started on the
empty board returns a solution of exactly `n` queens with
`count_attacks = 0`, except for `n = 2` and `n = 3`, where it returns
failure as a normal value (`none`, i.e. the Python `False`).  Existence
for `n ∉ {2, 3}` comes from the classical explicit constructions
(`evenCols`, `oddCols`, `cols2`, `cols3`) together with completeness of
the exhaustive search; the returned configuration is conflict-free by
soundness of the `is_safe` checks plus one-queen-per-row placement. -/
theorem claim_C1 (n : Nat) (h1 : 1 ≤ n) :
    ((n = 2 ∨ n = 3) → backtrack n = none) ∧
    (n ≠ 2 → n ≠ 3 →
      ∃ sol, backtrack n = some sol ∧ sol.length = n ∧ count_attacks sol = 0) := by
  constructor
  · rintro (rfl | rfl) <;> decide
  · intro h2 h3
    obtain ⟨F, hF⟩ := goodCols_exists n h2 h3
    have hs := backtrack_isSome n F hF
    obtain ⟨sol, hsol⟩ := Option.isSome_iff_exists.1 hs
    have hsound := btAux_sound n n 0 [] sol rfl (by omega) Partial_nil
      (by simpa [backtrack] using hsol)
    exact ⟨sol, hsol, hsound.1, Partial_count_attacks sol hsound.2⟩

/-- Witness for C1 at `n = 4`, the board size of the spec scenario (the
solver in fact returns rows `[1, 3, 0, 2]` there). -/
theorem claim_C1_witness :
    (1 ≤ 4) ∧
    (((4 = 2 ∨ 4 = 3) → backtrack 4 = none) ∧
      ((4 : Nat) ≠ 2 → (4 : Nat) ≠ 3 →
        ∃ sol, backtrack 4 = some sol ∧ sol.length = 4 ∧ count_attacks sol = 0)) :=
  ⟨by decide, claim_C1 4 (by decide)⟩

end LocalSearch
